import Mathlib

/-!
Verification development for `mysh.c`, a small shell that parses one input
line into pipe-separated stages, forks one child per stage, wires pipe
endpoints and redirections onto the standard streams, and execs each stage.

The embedding models the code, not the prose specification:
* `strtokSplit` is `strtok(3)` restricted to a single delimiter character,
  as used on `"|"` (`main`, line 53) and on `" "` (`count_pipes`, line 162,
  and `process_args`, line 221): it returns the maximal nonempty runs of
  non-delimiter characters, skipping leading/adjacent delimiters.
* `count_pipes` (lines 148-173) space-tokenizes the whole line and counts
  tokens equal to `"|"`.
* The parent loop of `main` (lines 42-138) is `loop`/`runLine`.  Kernel
  resources (pipe endpoints, opened files) are identified by `Res` values;
  pipe endpoints receive fresh descriptor numbers from a counter starting
  at 3 (0,1,2 are the standard streams; the parent frees descriptors before
  allocating more only at line granularity, so fresh numbering is faithful
  for a single line, the scope of every claim).  `pipe(2)` and `fork(2)`
  are modelled as succeeding; `close(2)` of a descriptor that is not open
  fails, which in the source breaks the stage loop (lines 113-116, 121-124).
* `process_args` (lines 175-310) is modelled by `process_args` below: the
  child's descriptor table is an association list from descriptor numbers
  to resources, `dup2` copies a table entry, `exit(2)`/`execvp` outcomes are
  the constructors of `COut`, and the syscalls issued are recorded in an
  action trace.  Writes into the fixed `opt_args_buf[MAX_ARGS]` buffer are
  recorded by the index written (`bufWrites`), so out-of-bounds writes are
  observable.  `open(2)` success is an oracle `fs : List Char → Bool` over
  the (newline-stripped) file name; a failed open is `exit(1)` as in the
  source.  Dereferencing a NULL `strtok` result (a real possibility in the
  source) is the distinguished outcome `COut.nullDeref`.
-/

/-- Maximum number of entries of `opt_args_buf` (`#define MAX_ARGS 10`). -/
def MAX_ARGS : Nat := 10

/-- Accumulator-based worker for `strtokSplit`. -/
def strtokAux (d : Char) : List Char → List Char → List (List Char)
  | [], acc => if acc = [] then [] else [acc.reverse]
  | c :: rest, acc =>
    if c = d then
      if acc = [] then strtokAux d rest []
      else acc.reverse :: strtokAux d rest []
    else strtokAux d rest (c :: acc)

/-- `strtok(3)` with a one-character delimiter set: the list of maximal
nonempty runs of characters different from `d`. -/
def strtokSplit (d : Char) (l : List Char) : List (List Char) :=
  strtokAux d l []

/-- Characters of a string literal, for writing concrete inputs. -/
def cs (s : String) : List Char := s.toList

/-- The token `main` compares against at line 61 and `process_args` at
line 229: the literal `exit` followed by the newline kept by `fgets`. -/
def exitSeg : List Char := cs "exit\n"

/-- The empty-input token compared against at line 65. -/
def nlSeg : List Char := cs "\n"

/-- The pipe token counted by `count_pipes` (line 167). -/
def pipeTok : List Char := cs "|"

/-- The input-redirection operator token (line 234). -/
def ltTok : List Char := cs "<"

/-- The truncating output-redirection operator token (line 254). -/
def gtTok : List Char := cs ">"

/-- The appending output-redirection operator token (line 274). -/
def ggTok : List Char := cs ">>"

/-- `count_pipes` (lines 148-173): tokenize the whole line on spaces and
count the tokens equal to `"|"`. -/
def count_pipes (l : List Char) : Nat :=
  ((strtokSplit ' ' l).filter (fun t => t = pipeTok)).length

/-- `tok[strcspn(tok, "\n")] = 0`: truncate at the first newline. -/
def stripNl (l : List Char) : List Char :=
  l.takeWhile (fun c => c ≠ '\n')

/-- Access mode of an `open(2)` call. -/
inductive AccMode where
  | readOnly
  | writeOnly
deriving DecidableEq

/-- The flags and permission argument of an `open(2)` call. -/
structure OFlags where
  acc : AccMode
  creat : Bool
  trunc : Bool
  append : Bool
  perms : Option Nat
deriving DecidableEq

/-- Which redirection operator a branch of `process_args` handles. -/
inductive RedirKind where
  | input
  | outTrunc
  | outAppend
deriving DecidableEq

/-- The `open(2)` invocation of each redirection branch of `process_args`:
`O_RDONLY` (line 239); `O_TRUNC | O_CREAT | O_WRONLY, 0644` (line 259);
`O_APPEND | O_CREAT | O_WRONLY, 0644` (line 279). -/
def flagsOf : RedirKind → OFlags
  | RedirKind.input => ⟨AccMode.readOnly, false, false, false, none⟩
  | RedirKind.outTrunc => ⟨AccMode.writeOnly, true, true, false, some 0o644⟩
  | RedirKind.outAppend => ⟨AccMode.writeOnly, true, false, true, some 0o644⟩

/-- The standard stream each redirection branch rebinds with `dup2`:
`dup2(fd, 0)` at line 244, `dup2(fd, 1)` at lines 264 and 284. -/
def dstOf : RedirKind → Nat
  | RedirKind.input => 0
  | RedirKind.outTrunc => 1
  | RedirKind.outAppend => 1

/-- A kernel resource reachable through a descriptor. -/
inductive Res where
  | stdIn
  | stdOut
  | stdErr
  | pipeR (k : Nat)
  | pipeW (k : Nat)
  | file (name : List Char) (fl : OFlags)
deriving DecidableEq

/-- A syscall performed by a child, recorded in program order. -/
inductive Act where
  | dup2 (src dst : Nat)
  | close (fd : Nat)
  | openf (k : RedirKind) (name : List Char) (fl : OFlags) (fd : Nat)
deriving DecidableEq

/-- Association-list lookup in a descriptor table. -/
def tblGet (t : List (Nat × Res)) (n : Nat) : Option Res :=
  (t.find? (fun p => p.1 = n)).map (fun p => p.2)

/-- `dup2(_, n)`: bind descriptor `n` (implicitly dropping what it held). -/
def tblSet (t : List (Nat × Res)) (n : Nat) (r : Res) : List (Nat × Res) :=
  (n, r) :: t.filter (fun p => p.1 ≠ n)

/-- `close(n)`: drop descriptor `n`. -/
def tblDel (t : List (Nat × Res)) (n : Nat) : List (Nat × Res) :=
  t.filter (fun p => p.1 ≠ n)

/-- Child-process state inside `process_args`. -/
structure CSt where
  table : List (Nat × Res)
  argv : List (List Char)
  argIdx : Nat
  bufWrites : List Nat
  nextFd : Nat
  trace : List Act
deriving DecidableEq

/-- How a child process run ends: `exit(code)`, `execvp(prog, argv)` (image
replacement attempted; `argv` is in the state), or undefined behaviour from
dereferencing a NULL `strtok` result. -/
inductive COut where
  | exited (code : Nat) (s : CSt)
  | execed (prog : List Char) (s : CSt)
  | nullDeref (s : CSt)
deriving DecidableEq

/-- The state carried by an outcome. -/
def coutSt : COut → CSt
  | COut.exited _ s => s
  | COut.execed _ s => s
  | COut.nullDeref s => s

/-- Whether the outcome reached `execvp` (line 306). -/
def coutIsExec : COut → Bool
  | COut.execed _ _ => true
  | _ => false

/-- Whether the outcome is the NULL-dereference undefined behaviour. -/
def coutIsNullDeref : COut → Bool
  | COut.nullDeref _ => true
  | _ => false

/-- Result of the token-scanning loop of `process_args` (lines 228-300):
either the loop finished (`strtok` returned NULL) or the child stopped. -/
inductive ScanRes where
  | done (s : CSt)
  | stop (o : COut)
deriving DecidableEq

/-- Scanner position: an ordinary token, or the filename expected right
after a redirection operator (the inner `strtok(NULL, " ")` calls at
lines 235, 255, 275). -/
inductive ScanMode where
  | norm
  | fname (k : RedirKind)
deriving DecidableEq

/-- `dup2(src, dst)` with the source's error check (`exit(2)` on failure,
which in the child only happens for a descriptor that is not open). -/
def dup2Step (s : CSt) (src dst : Nat) : CSt ⊕ COut :=
  match tblGet s.table src with
  | none => Sum.inr (COut.exited 2 s)
  | some r =>
      Sum.inl { s with table := tblSet s.table dst r,
                       trace := s.trace ++ [Act.dup2 src dst] }

/-- `close(fd)` with its error check (`exit(1)` on failure). -/
def closeStep (s : CSt) (fd : Nat) : CSt ⊕ COut :=
  match tblGet s.table fd with
  | none => Sum.inr (COut.exited 1 s)
  | some _ =>
      Sum.inl { s with table := tblDel s.table fd,
                       trace := s.trace ++ [Act.close fd] }

/-- One `if (fd != std) { dup2(fd, std); close(fd); }` block of
`process_args` (lines 197-206 for stdout, lines 210-219 for stdin). -/
def bindOne (s : CSt) (src dst : Nat) : CSt ⊕ COut :=
  if src = dst then Sum.inl s
  else
    match dup2Step s src dst with
    | Sum.inr o => Sum.inr o
    | Sum.inl s1 => closeStep s1 src

/-- The preamble of `process_args`: rebind stdout to `write_fd` then stdin
to `read_fd` (in source order), releasing the originals. -/
def bindPipes (s : CSt) (rfd wfd : Nat) : CSt ⊕ COut :=
  match bindOne s wfd 1 with
  | Sum.inr o => Sum.inr o
  | Sum.inl s1 => bindOne s1 rfd 0

/-- The token loop of `process_args` (lines 228-300).  In `norm` mode the
token is checked, in order, against `"exit\n"`, `"<"`, `">"`, `">>"`, and
otherwise stored into `opt_args_buf` (newline-stripped) at `args_buf_index`,
which is then incremented.  In `fname k` mode the token is the filename of
operator `k`: it is newline-stripped, opened (`exit(1)` if the open fails),
`dup2`-bound onto the operator's standard stream — the just-opened
descriptor is valid, so this `dup2` cannot fail — and `NULL` is written at
`opt_args_buf[args_buf_index]` without incrementing the index.  A missing
filename (`strtok` returns NULL, line 235/255/275) is dereferenced by
`strcspn` at line 237/257/277: undefined behaviour, `COut.nullDeref`. -/
def procTokens (fs : List Char → Bool) :
    List (List Char) → ScanMode → CSt → ScanRes
  | [], ScanMode.norm, s => ScanRes.done s
  | [], ScanMode.fname _, s => ScanRes.stop (COut.nullDeref s)
  | tok :: rest, ScanMode.fname k, s =>
    let f := stripNl tok
    if fs f then
      let fd := s.nextFd
      let fl := flagsOf k
      let s1 : CSt :=
        { s with table := tblSet s.table fd (Res.file f fl),
                 nextFd := s.nextFd + 1,
                 trace := s.trace ++ [Act.openf k f fl fd] }
      let s2 : CSt :=
        { s1 with table := tblSet s1.table (dstOf k) (Res.file f fl),
                  trace := s1.trace ++ [Act.dup2 fd (dstOf k)] }
      let s3 : CSt := { s2 with bufWrites := s2.bufWrites ++ [s2.argIdx] }
      procTokens fs rest ScanMode.norm s3
    else ScanRes.stop (COut.exited 1 s)
  | tok :: rest, ScanMode.norm, s =>
    if tok = exitSeg then ScanRes.stop (COut.exited 0 s)
    else if tok = ltTok then procTokens fs rest (ScanMode.fname RedirKind.input) s
    else if tok = gtTok then procTokens fs rest (ScanMode.fname RedirKind.outTrunc) s
    else if tok = ggTok then procTokens fs rest (ScanMode.fname RedirKind.outAppend) s
    else
      procTokens fs rest ScanMode.norm
        { s with argv := s.argv ++ [stripNl tok],
                 bufWrites := s.bufWrites ++ [s.argIdx],
                 argIdx := s.argIdx + 1 }

/-- The state carried by a scan result. -/
def stOf : ScanRes → CSt
  | ScanRes.done s => s
  | ScanRes.stop o => coutSt o

/-- The standard descriptors every child starts with. -/
def stdTable : List (Nat × Res) :=
  [(0, Res.stdIn), (1, Res.stdOut), (2, Res.stdErr)]

/-- Fresh child state: standard streams plus the pipe descriptors inherited
from the parent at `fork`, and the parent's descriptor counter. -/
def initCSt (inh : List (Nat × Res)) (nfd : Nat) : CSt :=
  ⟨stdTable ++ inh, [], 0, [], nfd, []⟩

/-- `process_args(arg_str, read_fd, write_fd)` (lines 175-310) run in a
child that inherited the pipe descriptors `inh`: rebind the standard
streams to the passed descriptors, scan the segment's space-separated
tokens, then strip the program name (a NULL dereference if the segment had
no token), write the terminating NULL at `opt_args_buf[args_buf_index]`
(line 305) and reach `execvp`. -/
def process_args (fs : List Char → Bool) (seg : List Char) (rfd wfd : Nat)
    (inh : List (Nat × Res)) (nfd : Nat) : COut :=
  match bindPipes (initCSt inh nfd) rfd wfd with
  | Sum.inr o => o
  | Sum.inl s =>
    match procTokens fs (strtokSplit ' ' seg) ScanMode.norm s with
    | ScanRes.stop o => o
    | ScanRes.done s1 =>
      match (strtokSplit ' ' seg).head? with
      | none => COut.nullDeref s1
      | some p =>
          COut.execed (stripNl p)
            { s1 with bufWrites := s1.bufWrites ++ [s1.argIdx] }

/-- A forked stage: the segment and descriptor arguments the child passes
to `process_args`, the pipe descriptors open in the parent at `fork` time
(all inherited by the child), and the parent's descriptor counter. -/
structure Child where
  seg : List Char
  rfd : Nat
  wfd : Nat
  inh : List (Nat × Res)
  nfd : Nat
deriving DecidableEq

/-- Parent state across the stage loop of `main` (lines 59-131). -/
structure PSt where
  readFd : Nat
  writeFd : Nat
  prevReadFd : Nat
  pipeIndex : Nat
  nextFd : Nat
  opened : List (Nat × Res)
  pipeCount : Nat
  children : List Child
deriving DecidableEq

/-- Result of one line: the stages forked, the number of `pipe(2)` calls,
the pipe descriptors the parent still holds after the loop, and whether the
whole process exited (the `exit(EXIT_SUCCESS)` at line 62). -/
structure LineRes where
  children : List Child
  pipeCount : Nat
  opened : List (Nat × Res)
  exited : Option Nat
deriving DecidableEq

/-- Package the parent state once the stage loop is over. -/
def mkRes (s : PSt) (e : Option Nat) : LineRes :=
  ⟨s.children, s.pipeCount, s.opened, e⟩

/-- `pipe(fds)` (lines 76-83): two fresh descriptors, read end first. -/
def pOpen (s : PSt) : PSt :=
  { s with readFd := s.nextFd,
           writeFd := s.nextFd + 1,
           opened := s.opened ++
             [(s.nextFd, Res.pipeR s.pipeCount), (s.nextFd + 1, Res.pipeW s.pipeCount)],
           nextFd := s.nextFd + 2,
           pipeCount := s.pipeCount + 1 }

/-- Parent-side `close`: `none` models the `< 0` failure branch that
breaks the stage loop (lines 113-116, 121-124). -/
def pClose (s : PSt) (fd : Nat) : Option PSt :=
  if s.opened.any (fun p => p.1 = fd) then
    some { s with opened := s.opened.filter (fun p => p.1 ≠ fd) }
  else none

/-- The descriptors a child passes to `process_args` (lines 93-106): stage
zero reads the inherited stdin; a later stage reads `prev_read_fd`, and the
last stage (`pipe_index == num_pipes`) resets its write side to stdout. -/
def forkChild (numPipes : Nat) (tok : List Char) (s : PSt) : Child :=
  if s.pipeIndex = 0 then ⟨tok, 0, s.writeFd, s.opened, s.nextFd⟩
  else
    ⟨tok, s.prevReadFd, if s.pipeIndex = numPipes then 1 else s.writeFd,
      s.opened, s.nextFd⟩

/-- One iteration of the stage loop for a token that is neither `"exit\n"`
nor `"\n"`: remember `prev_read_fd`, create a pipe while
`pipe_index < num_pipes`, fork, and in the parent close the just-created
write end and, from stage one on, the previous read end (lines 69-130).
`Sum.inr` is the `break` taken when a parent-side `close` fails. -/
def stepIter (numPipes : Nat) (tok : List Char) (s0 : PSt) : PSt ⊕ LineRes :=
  let s1 : PSt := { s0 with prevReadFd := s0.readFd }
  let s2 : PSt := if s1.pipeIndex < numPipes then pOpen s1 else s1
  let s3 : PSt := { s2 with children := s2.children ++ [forkChild numPipes tok s2] }
  if 0 < numPipes then
    match (if s3.pipeIndex < numPipes then pClose s3 s3.writeFd else some s3) with
    | none => Sum.inr (mkRes s3 none)
    | some s4 =>
      match (if s4.pipeIndex ≠ 0 then pClose s4 s4.prevReadFd else some s4) with
      | none => Sum.inr (mkRes s4 none)
      | some s5 => Sum.inl { s5 with pipeIndex := s5.pipeIndex + 1 }
  else Sum.inl { s3 with pipeIndex := s3.pipeIndex + 1 }

/-- The stage loop of `main` (lines 59-131) over the `strtok`-produced
segments: `"exit\n"` exits the whole process with status 0, `"\n"` breaks
without forking, and any other segment is forked and wired. -/
def loop (numPipes : Nat) : List (List Char) → PSt → LineRes
  | [], s => mkRes s none
  | tok :: rest, s =>
    if tok = exitSeg then mkRes s (some 0)
    else if tok = nlSeg then mkRes s none
    else
      match stepIter numPipes tok s with
      | Sum.inr r => r
      | Sum.inl s' => loop numPipes rest s'

/-- Parent state at the top of the line (lines 48-56): standard streams,
no pipes yet, first fresh descriptor 3. -/
def initPSt : PSt := ⟨0, 1, 0, 0, 3, [], 0, []⟩

/-- One whole iteration of the `fgets` loop of `main` for a given line:
count the pipes, split on `'|'`, and run the stage loop. -/
def runLine (l : List Char) : LineRes :=
  loop (count_pipes l) (strtokSplit '|' l) initPSt

/-- Run the child of a forked stage. -/
def runChildOf (fs : List Char → Bool) (c : Child) : COut :=
  process_args fs c.seg c.rfd c.wfd c.inh c.nfd

/-- The state carried by a `CSt ⊕ COut` step result. -/
def bindSt : CSt ⊕ COut → CSt
  | Sum.inl s => s
  | Sum.inr o => coutSt o

/-- Invariant of the parent's stage loop while each processed stage has
created its pipe: either there are no pipes at all (no parent-side close
is ever attempted), or no stage has run yet, or after `pipeIndex` stages
the parent holds exactly the read end of the last pipe created, and the
descriptor counter and pipe count line up with the stage index. -/
def PInv (numPipes : Nat) (s : PSt) : Prop :=
  numPipes = 0 ∨
  (0 < numPipes ∧ s.pipeIndex = 0 ∧ s.opened = [] ∧ s.nextFd = 3 ∧
    s.pipeCount = 0) ∨
  (0 < numPipes ∧ 1 ≤ s.pipeIndex ∧ s.pipeIndex ≤ numPipes ∧
    s.readFd = 2 * s.pipeIndex + 1 ∧
    s.opened = [(2 * s.pipeIndex + 1, Res.pipeR (s.pipeIndex - 1))] ∧
    s.nextFd = 2 * s.pipeIndex + 3 ∧ s.pipeCount = s.pipeIndex)

/-- C1: the spec's critical invariant fails in the code: for the line
`a | b`, the stage-0 child reaches `execvp` while still holding open the
read end of the pipe it writes to (the child only rebinds and closes the
write end, lines 197-206; nothing closes the inherited read end), so a pipe
endpoint the child does not use is open at the moment its image is
replaced. -/
theorem C1_child_holds_unused_endpoint :
    (runLine (cs "a | b\n")).children.head? =
      some ⟨cs "a ", 0, 4, [(3, Res.pipeR 0), (4, Res.pipeW 0)], 5⟩ ∧
    coutIsExec (runChildOf (fun _ => false)
      ⟨cs "a ", 0, 4, [(3, Res.pipeR 0), (4, Res.pipeW 0)], 5⟩) = true ∧
    tblGet (coutSt (runChildOf (fun _ => false)
      ⟨cs "a ", 0, 4, [(3, Res.pipeR 0), (4, Res.pipeW 0)], 5⟩)).table 3 =
      some (Res.pipeR 0) ∧
    tblGet (coutSt (runChildOf (fun _ => false)
      ⟨cs "a ", 0, 4, [(3, Res.pipeR 0), (4, Res.pipeW 0)], 5⟩)).table 0 =
      some Res.stdIn ∧
    tblGet (coutSt (runChildOf (fun _ => false)
      ⟨cs "a ", 0, 4, [(3, Res.pipeR 0), (4, Res.pipeW 0)], 5⟩)).table 1 =
      some (Res.pipeW 0) := by
  decide

/-- C2: `count_pipes` tokenizes on spaces, so for the two-stage line `a|b`
it counts zero pipes: the orchestrator creates 0 pipe links, not n-1 = 1,
and the two stages are spawned unconnected. -/
theorem C2_pipe_count_mismatch :
    (runLine (cs "a|b\n")).children.length = 2 ∧
    (runLine (cs "a|b\n")).pipeCount = 0 := by
  decide

/-- C3 counterexample: the line `exit|ls` has the bare exit token as its
first pipe-separated segment, yet the process does not terminate (`main`
only compares a segment against the exact characters `exit\n`, line 61):
both stages are spawned and no exit occurs, contradicting the claim. -/
theorem C3_exit_segment_not_honored :
    strtokSplit '|' (cs "exit|ls\n") = [cs "exit", cs "ls\n"] ∧
    (runLine (cs "exit|ls\n")).exited = none ∧
    (runLine (cs "exit|ls\n")).children.length = 2 := by
  decide

/-- C4: a stage of 11 tokens (more than `MAX_ARGS = 10`) is not rejected:
a child is forked, `process_args` writes `opt_args_buf` at indices 10 and
11 — past the end of the 10-entry buffer — and still reaches `execvp`. -/
theorem C4_args_overflow :
    (runLine (cs "echo a b c d e f g h i j\n")).children =
      [⟨cs "echo a b c d e f g h i j\n", 0, 1, [], 3⟩] ∧
    coutIsExec (runChildOf (fun _ => false)
      ⟨cs "echo a b c d e f g h i j\n", 0, 1, [], 3⟩) = true ∧
    ((coutSt (runChildOf (fun _ => false)
      ⟨cs "echo a b c d e f g h i j\n", 0, 1, [], 3⟩)).bufWrites.any
        (fun i => MAX_ARGS ≤ i)) = true := by
  decide

/-- C5: when a redirection operator is the final token of a segment, as in
the first stage of `cat < | wc`, no parse error is reported: the child is
forked and dereferences the NULL returned by `strtok` for the missing
filename (line 237) — undefined behaviour, not `MissingRedirectTarget`. -/
theorem C5_missing_target_crash :
    (runLine (cs "cat < | wc\n")).children.head? =
      some ⟨cs "cat < ", 0, 4, [(3, Res.pipeR 0), (4, Res.pipeW 0)], 5⟩ ∧
    coutIsNullDeref (runChildOf (fun _ => false)
      ⟨cs "cat < ", 0, 4, [(3, Res.pipeR 0), (4, Res.pipeW 0)], 5⟩) = true := by
  decide

/-- C6: a pipe-separated segment with no program token, as the middle
segment of `ls | | wc`, is not rejected with `EmptyStage`: three children
are forked, and the middle child's `strtok` yields no token so its NULL
`program_name` is dereferenced at line 302 — undefined behaviour after
spawning, not a parse error before spawning. -/
theorem C6_empty_stage_crash :
    (runLine (cs "ls | | wc\n")).children.length = 3 ∧
    (runLine (cs "ls | | wc\n")).children[1]? =
      some ⟨cs " ", 3, 6, [(3, Res.pipeR 0), (5, Res.pipeR 1), (6, Res.pipeW 1)], 7⟩ ∧
    coutIsNullDeref (runChildOf (fun _ => false)
      ⟨cs " ", 3, 6, [(3, Res.pipeR 0), (5, Res.pipeR 1), (6, Res.pipeW 1)], 7⟩) = true := by
  decide

/-- C8 counterexample: for the stage `wc < in.txt` (open succeeding), the
child's syscall trace is exactly `open` then `dup2(3, 0)` — the original
descriptor 3, though different from the target stream 0, is never closed
before `execvp`, contradicting the claim. -/
theorem C8_redirect_fd_not_released :
    (runLine (cs "wc < in.txt\n")).children =
      [⟨cs "wc < in.txt\n", 0, 1, [], 3⟩] ∧
    (coutSt (runChildOf (fun _ => true) ⟨cs "wc < in.txt\n", 0, 1, [], 3⟩)).trace =
      [Act.openf RedirKind.input (cs "in.txt") (flagsOf RedirKind.input) 3,
       Act.dup2 3 0] ∧
    Act.close 3 ∉
      (coutSt (runChildOf (fun _ => true) ⟨cs "wc < in.txt\n", 0, 1, [], 3⟩)).trace ∧
    coutIsExec (runChildOf (fun _ => true) ⟨cs "wc < in.txt\n", 0, 1, [], 3⟩) = true := by
  decide

/-- C9 counterexample: the line consisting of one space (whitespace only)
does spawn a process: `main` only skips a segment equal to the bare
newline (line 65), so ` \n` is forked and the child attempts to exec an
empty program name. -/
theorem C9_blank_line_spawns :
    (runLine (cs " \n")).children = [⟨cs " \n", 0, 1, [], 3⟩] ∧
    coutIsExec (runChildOf (fun _ => false) ⟨cs " \n", 0, 1, [], 3⟩) = true := by
  decide

/-- C10 counterexample: for the stage `cat < exit`, the token list contains
the token `exit` immediately followed by the line terminator, yet the child
does not exit 0: the token is consumed as the filename of `<` (line 235),
never compared against `exit\n`, and the child goes on to replace its image
with `cat`. -/
theorem C10_exit_as_filename :
    exitSeg ∈ strtokSplit ' ' (cs "cat < exit\n") ∧
    (runLine (cs "cat < exit\n")).children =
      [⟨cs "cat < exit\n", 0, 1, [], 3⟩] ∧
    coutIsExec (runChildOf (fun _ => true) ⟨cs "cat < exit\n", 0, 1, [], 3⟩) = true := by
  decide

/-- If the head segment of a line is the bare newline, the stage loop
breaks immediately (line 65-67), forking nothing. -/
theorem loop_nl_head (numPipes : Nat) (rest : List (List Char)) (s : PSt) :
    loop numPipes (nlSeg :: rest) s = mkRes s none := by
  simp only [loop]
  rw [if_neg (by decide)]
  simp

/-- C9 (amended): only an input line whose first pipe-separated segment is
exactly the line terminator — e.g. the empty line — is skipped: nothing is
forked, no pipe descriptor is left open, no error occurs, and the loop
falls through to the re-prompt.  (A line of one or more spaces is instead
forked; see the counterexample.) -/
theorem C9_terminator_line_skipped (line : List Char) (rest : List (List Char))
    (hseg : strtokSplit '|' line = nlSeg :: rest) :
    (runLine line).children = [] ∧ (runLine line).exited = none ∧
    (runLine line).opened = [] := by
  unfold runLine
  rw [hseg, loop_nl_head]
  exact ⟨rfl, rfl, rfl⟩

/-- C9 witness: the empty line (just the terminator) forks nothing. -/
theorem C9_skip_witness :
    (runLine (cs "\n")).children = [] ∧ (runLine (cs "\n")).exited = none ∧
    (runLine (cs "\n")).opened = [] :=
  C9_terminator_line_skipped (cs "\n") [] (by decide)

/-- Scanning plain argument tokens followed by the `exit\n` token stops the
child with `exit(EXIT_SUCCESS)` (line 230) before any further action: no
syscall is issued and the descriptor table is untouched. -/
theorem procTokens_args_then_exit (fs : List Char → Bool)
    (pre post : List (List Char)) :
    ∀ s : CSt, (∀ t ∈ pre, t ≠ exitSeg ∧ t ≠ ltTok ∧ t ≠ gtTok ∧ t ≠ ggTok) →
    ∃ s', procTokens fs (pre ++ exitSeg :: post) ScanMode.norm s =
            ScanRes.stop (COut.exited 0 s') ∧
          s'.trace = s.trace ∧ s'.table = s.table := by
  induction pre with
  | nil =>
    intro s _
    exact ⟨s, by simp [procTokens], rfl, rfl⟩
  | cons t pre ih =>
    intro s h
    obtain ⟨h1, h2, h3, h4⟩ := h t (List.mem_cons_self t pre)
    obtain ⟨s', heq, htr, htb⟩ :=
      ih { s with argv := s.argv ++ [stripNl t],
                  bufWrites := s.bufWrites ++ [s.argIdx],
                  argIdx := s.argIdx + 1 }
        (fun u hu => h u (List.mem_cons_of_mem t hu))
    refine ⟨s', ?_, htr, htb⟩
    simp only [List.cons_append, procTokens]
    rw [if_neg h1, if_neg h2, if_neg h3, if_neg h4]
    exact heq

/-- C10 (amended): the child's scanner treats a token as the exit command
only where it is scanned in command position; for every stage whose token
list is plain argument tokens (no redirection operators) followed by the
token `exit` immediately followed by the line terminator, the child — once
its pipe descriptors are rebound — terminates with status 0 at that token,
issuing no further syscall (so no redirection is applied) and never
replacing its image.  A token `exit` without the terminator, or one
consumed as a redirection filename, is not special. -/
theorem C10_exit_token_exits_child (fs : List Char → Bool) (seg : List Char)
    (rfd wfd nfd : Nat) (inh : List (Nat × Res))
    (pre post : List (List Char)) (s1 : CSt)
    (hseg : strtokSplit ' ' seg = pre ++ exitSeg :: post)
    (hpre : ∀ t ∈ pre, t ≠ exitSeg ∧ t ≠ ltTok ∧ t ≠ gtTok ∧ t ≠ ggTok)
    (hbind : bindPipes (initCSt inh nfd) rfd wfd = Sum.inl s1) :
    ∃ s', process_args fs seg rfd wfd inh nfd = COut.exited 0 s' ∧
          s'.trace = s1.trace := by
  obtain ⟨s', heq, htr, _⟩ := procTokens_args_then_exit fs pre post s1 hpre
  exact ⟨s', by simp only [process_args, hbind, hseg, heq], htr⟩

/-- C10 witness: the line `echo exit` forks a child that exits with status
0 at the exit token, without execing anything. -/
theorem C10_exit_child_witness :
    ∃ s', process_args (fun _ => true) (cs "echo exit\n") 0 1 [] 3 =
            COut.exited 0 s' ∧ s'.trace = (initCSt [] 3).trace :=
  C10_exit_token_exits_child (fun _ => true) (cs "echo exit\n") 0 1 3 []
    [cs "echo"] [] (initCSt [] 3) (by decide) (by decide) (by decide)

/-- Trace extension of the token scanner: the scan only appends actions;
it never closes a descriptor, and every `open` it performs uses the flags
of its operator's branch, receives a fresh descriptor (at or above the
current counter), and is followed by a `dup2` of that descriptor onto the
operator's standard stream. -/
theorem procTokens_trace_ext (fs : List Char → Bool) :
    ∀ (l : List (List Char)) (m : ScanMode) (s : CSt),
    ∃ ext, (stOf (procTokens fs l m s)).trace = s.trace ++ ext ∧
      s.nextFd ≤ (stOf (procTokens fs l m s)).nextFd ∧
      (∀ c, Act.close c ∉ ext) ∧
      (∀ k f fl fd, Act.openf k f fl fd ∈ ext →
        fl = flagsOf k ∧ s.nextFd ≤ fd ∧ Act.dup2 fd (dstOf k) ∈ ext) := by
  intro l
  induction l with
  | nil =>
    intro m s
    cases m <;> exact ⟨[], by simp [procTokens, stOf, coutSt], le_refl _, by simp, by simp⟩
  | cons t rest ih =>
    intro m s
    cases m with
    | fname k =>
      simp only [procTokens]
      by_cases hf : fs (stripNl t)
      · rw [if_pos hf]
        obtain ⟨ext, htr, hfd, hcl, hop⟩ := ih ScanMode.norm _
        refine ⟨Act.openf k (stripNl t) (flagsOf k) s.nextFd ::
                Act.dup2 s.nextFd (dstOf k) :: ext, ?_, ?_, ?_, ?_⟩
        · rw [htr]; simp
        · exact le_trans (Nat.le_succ _) hfd
        · intro c hc
          simp only [List.mem_cons] at hc
          rcases hc with h | h | h
          · simp at h
          · simp at h
          · exact hcl c h
        · intro k' f' fl' fd' hmem
          simp only [List.mem_cons] at hmem
          rcases hmem with h | h | h
          · rw [Act.openf.injEq] at h
            obtain ⟨hk, hf', hfl, hfd'⟩ := h
            subst hk; subst hfl; subst hfd'
            exact ⟨rfl, le_refl _, by simp⟩
          · simp at h
          · obtain ⟨hfl, hge, hdup⟩ := hop k' f' fl' fd' h
            exact ⟨hfl, le_trans (Nat.le_succ _) hge, by simp [hdup]⟩
      · rw [if_neg hf]
        exact ⟨[], by simp [stOf, coutSt], le_refl _, by simp, by simp⟩
    | norm =>
      simp only [procTokens]
      by_cases h1 : t = exitSeg
      · rw [if_pos h1]
        exact ⟨[], by simp [stOf, coutSt], le_refl _, by simp, by simp⟩
      rw [if_neg h1]
      by_cases h2 : t = ltTok
      · rw [if_pos h2]; exact ih (ScanMode.fname RedirKind.input) s
      rw [if_neg h2]
      by_cases h3 : t = gtTok
      · rw [if_pos h3]; exact ih (ScanMode.fname RedirKind.outTrunc) s
      rw [if_neg h3]
      by_cases h4 : t = ggTok
      · rw [if_pos h4]; exact ih (ScanMode.fname RedirKind.outAppend) s
      rw [if_neg h4]
      exact ih ScanMode.norm _


/-- One `dup2`/`close` rebinding block only appends a `dup2` and a `close`
of the source descriptor to the trace, and leaves the counter alone. -/
theorem bindOne_trace (s : CSt) (src dst : Nat) :
    ∃ ext, (bindSt (bindOne s src dst)).trace = s.trace ++ ext ∧
      (bindSt (bindOne s src dst)).nextFd = s.nextFd ∧
      (∀ k f fl fd, Act.openf k f fl fd ∉ ext) ∧
      (∀ c, Act.close c ∈ ext → c = src) := by
  unfold bindOne
  by_cases hsd : src = dst
  · rw [if_pos hsd]
    exact ⟨[], by simp [bindSt], rfl, by simp, by simp⟩
  rw [if_neg hsd]
  unfold dup2Step
  cases hg : tblGet s.table src with
  | none =>
    simp only [hg]
    exact ⟨[], by simp [bindSt, coutSt], rfl, by simp, by simp⟩
  | some r =>
    simp only [hg]
    unfold closeStep
    cases hg2 : tblGet (tblSet s.table dst r) src with
    | none =>
      simp only [hg2]
      refine ⟨[Act.dup2 src dst], by simp [bindSt, coutSt], rfl, by simp, ?_⟩
      intro c hc
      simp only [List.mem_singleton] at hc
      simp at hc
    | some r2 =>
      simp only [hg2]
      refine ⟨[Act.dup2 src dst, Act.close src], by simp [bindSt], rfl, by simp, ?_⟩
      intro c hc
      simp only [List.mem_cons, List.mem_singleton] at hc
      rcases hc with h | h | h
      · simp at h
      · exact (Act.close.inj h)
      · simp at h

/-- The stdout/stdin rebinding preamble of `process_args` appends no
`open` action and closes only the two passed descriptors. -/
theorem bindPipes_trace (s0 : CSt) (rfd wfd : Nat) :
    ∃ ext, (bindSt (bindPipes s0 rfd wfd)).trace = s0.trace ++ ext ∧
      (bindSt (bindPipes s0 rfd wfd)).nextFd = s0.nextFd ∧
      (∀ k f fl fd, Act.openf k f fl fd ∉ ext) ∧
      (∀ c, Act.close c ∈ ext → c = rfd ∨ c = wfd) := by
  unfold bindPipes
  obtain ⟨e1, h1, hn1, ho1, hc1⟩ := bindOne_trace s0 wfd 1
  cases hb : bindOne s0 wfd 1 with
  | inr o =>
    rw [hb] at h1 hn1
    simp only [hb]
    exact ⟨e1, h1, hn1, ho1, fun c hc => Or.inr (hc1 c hc)⟩
  | inl s1 =>
    rw [hb] at h1 hn1
    simp only [bindSt] at h1 hn1
    simp only [hb]
    obtain ⟨e2, h2, hn2, ho2, hc2⟩ := bindOne_trace s1 rfd 0
    refine ⟨e1 ++ e2, ?_, ?_, ?_, ?_⟩
    · rw [h2, h1]; simp [bindSt]
    · rw [hn2, hn1]
    · intro k f fl fd hmem
      rcases List.mem_append.mp hmem with h | h
      · exact ho1 k f fl fd h
      · exact ho2 k f fl fd h
    · intro c hc
      rcases List.mem_append.mp hc with h | h
      · exact Or.inr (hc1 c h)
      · exact Or.inl (hc2 c h)

/-- Decomposition of a child's full syscall trace: a preamble part from the
pipe rebinding (no opens; closes only of the two passed descriptors)
followed by the scanner part (no closes; every open at a descriptor at or
above the initial counter, with its branch's flags, followed by the
`dup2` onto the operator's standard stream). -/
theorem process_args_trace (fs : List Char → Bool) (seg : List Char)
    (rfd wfd nfd : Nat) (inh : List (Nat × Res)) :
    ∃ e1 e2, (coutSt (process_args fs seg rfd wfd inh nfd)).trace = e1 ++ e2 ∧
      (∀ k f fl fd, Act.openf k f fl fd ∉ e1) ∧
      (∀ c, Act.close c ∈ e1 → c = rfd ∨ c = wfd) ∧
      (∀ c, Act.close c ∉ e2) ∧
      (∀ k f fl fd, Act.openf k f fl fd ∈ e2 →
        fl = flagsOf k ∧ nfd ≤ fd ∧ Act.dup2 fd (dstOf k) ∈ e2) := by
  obtain ⟨e1, h1, hn1, ho1, hc1⟩ := bindPipes_trace (initCSt inh nfd) rfd wfd
  cases hb : bindPipes (initCSt inh nfd) rfd wfd with
  | inr o =>
    rw [hb] at h1
    refine ⟨e1, [], ?_, ho1, hc1, by simp, by simp⟩
    unfold process_args
    rw [hb]
    simpa [bindSt, initCSt] using h1
  | inl s1 =>
    rw [hb] at h1 hn1
    simp only [bindSt] at h1 hn1
    obtain ⟨e2, h2, _, hc2, ho2⟩ :=
      procTokens_trace_ext fs (strtokSplit ' ' seg) ScanMode.norm s1
    have hs1tr : s1.trace = e1 := by simpa [initCSt] using h1
    have hs1fd : s1.nextFd = nfd := by simpa [initCSt] using hn1
    refine ⟨e1, e2, ?_, ho1, hc1, hc2, ?_⟩
    · unfold process_args
      simp only [hb]
      cases hp : procTokens fs (strtokSplit ' ' seg) ScanMode.norm s1 with
      | stop o =>
        rw [hp] at h2
        simp only [hp, stOf] at h2 ⊢
        show (coutSt o).trace = e1 ++ e2
        rw [h2, hs1tr]
      | done s2 =>
        rw [hp] at h2
        simp only [hp, stOf] at h2 ⊢
        cases hh : (strtokSplit ' ' seg).head? with
        | none =>
          simp only [hh]
          show s2.trace = e1 ++ e2
          rw [h2, hs1tr]
        | some p =>
          simp only [hh]
          show s2.trace = e1 ++ e2
          rw [h2, hs1tr]
    · intro k f fl fd hmem
      obtain ⟨hfl, hge, hdup⟩ := ho2 k f fl fd hmem
      exact ⟨hfl, by omega, hdup⟩

/-- C7: every `open` a child ever performs carries exactly the flag set of
its redirection operator's branch: truncate-write (`>`) opens write-only,
creating if absent and truncating, with permissions 0644; append-write
(`>>`) opens write-only, creating if absent, in append mode and without
truncation; input (`<`) opens read-only. -/
theorem C7_redirection_open_flags (fs : List Char → Bool) (seg : List Char)
    (rfd wfd nfd : Nat) (inh : List (Nat × Res))
    (k : RedirKind) (f : List Char) (fl : OFlags) (fd : Nat)
    (h : Act.openf k f fl fd ∈
      (coutSt (process_args fs seg rfd wfd inh nfd)).trace) :
    (k = RedirKind.outTrunc →
      fl = ⟨AccMode.writeOnly, true, true, false, some 0o644⟩) ∧
    (k = RedirKind.outAppend →
      fl = ⟨AccMode.writeOnly, true, false, true, some 0o644⟩) ∧
    (k = RedirKind.input →
      fl = ⟨AccMode.readOnly, false, false, false, none⟩) := by
  obtain ⟨e1, e2, htr, ho1, _, _, ho2⟩ :=
    process_args_trace fs seg rfd wfd nfd inh
  rw [htr] at h
  rcases List.mem_append.mp h with h' | h'
  · exact absurd h' (ho1 k f fl fd)
  · obtain ⟨hfl, _, _⟩ := ho2 k f fl fd h'
    refine ⟨?_, ?_, ?_⟩ <;> rintro rfl <;> exact hfl

/-- C7 witness: the stage `echo > f` opens `f` with the truncate-write
flag set. -/
theorem C7_open_flags_witness :
    (Act.openf RedirKind.outTrunc (cs "f")
        ⟨AccMode.writeOnly, true, true, false, some 0o644⟩ 3 ∈
      (coutSt (process_args (fun _ => true) (cs "echo > f\n") 0 1 [] 3)).trace) ∧
    ((RedirKind.outTrunc = RedirKind.outTrunc →
        (⟨AccMode.writeOnly, true, true, false, some 0o644⟩ : OFlags) =
          ⟨AccMode.writeOnly, true, true, false, some 0o644⟩) ∧
     (RedirKind.outTrunc = RedirKind.outAppend →
        (⟨AccMode.writeOnly, true, true, false, some 0o644⟩ : OFlags) =
          ⟨AccMode.writeOnly, true, false, true, some 0o644⟩) ∧
     (RedirKind.outTrunc = RedirKind.input →
        (⟨AccMode.writeOnly, true, true, false, some 0o644⟩ : OFlags) =
          ⟨AccMode.readOnly, false, false, false, none⟩)) :=
  ⟨by decide,
   C7_redirection_open_flags (fun _ => true) (cs "echo > f\n") 0 1 3 []
     RedirKind.outTrunc (cs "f")
     ⟨AccMode.writeOnly, true, true, false, some 0o644⟩ 3 (by decide)⟩

/-- C8 (amended): a child binds every descriptor returned by a redirection
open onto the operator's standard stream with `dup2`, but — unlike the
pipe-derived descriptors rebound at stage entry — never releases it: no
`close` of that descriptor occurs anywhere in the child's trace, so the
original descriptor number stays open across the image replacement. -/
theorem C8_release_discipline (fs : List Char → Bool) (seg : List Char)
    (rfd wfd nfd : Nat) (inh : List (Nat × Res))
    (k : RedirKind) (f : List Char) (fl : OFlags) (fd : Nat)
    (hr : rfd < nfd) (hw : wfd < nfd)
    (h : Act.openf k f fl fd ∈
      (coutSt (process_args fs seg rfd wfd inh nfd)).trace) :
    Act.dup2 fd (dstOf k) ∈
      (coutSt (process_args fs seg rfd wfd inh nfd)).trace ∧
    Act.close fd ∉
      (coutSt (process_args fs seg rfd wfd inh nfd)).trace := by
  obtain ⟨e1, e2, htr, ho1, hc1, hc2, ho2⟩ :=
    process_args_trace fs seg rfd wfd nfd inh
  rw [htr] at h ⊢
  rcases List.mem_append.mp h with h' | h'
  · exact absurd h' (ho1 k f fl fd)
  · obtain ⟨_, hge, hdup⟩ := ho2 k f fl fd h'
    refine ⟨List.mem_append.mpr (Or.inr hdup), ?_⟩
    intro hcl
    rcases List.mem_append.mp hcl with hx | hx
    · rcases hc1 fd hx with rfl | rfl
      · omega
      · omega
    · exact hc2 fd hx

/-- C8 witness: in the stage `wc < in.txt` the opened descriptor 3 is
`dup2`-bound onto stdin and never closed. -/
theorem C8_release_witness :
    Act.dup2 3 (dstOf RedirKind.input) ∈
      (coutSt (process_args (fun _ => true) (cs "wc < in.txt\n") 0 1 [] 3)).trace ∧
    Act.close 3 ∉
      (coutSt (process_args (fun _ => true) (cs "wc < in.txt\n") 0 1 [] 3)).trace :=
  C8_release_discipline (fun _ => true) (cs "wc < in.txt\n") 0 1 3 []
    RedirKind.input (cs "in.txt") (flagsOf RedirKind.input) 3
    (by decide) (by decide) (by decide)


/-- While the stage index is below the pipe count (or there are no pipes),
one loop iteration on an ordinary segment forks exactly one child, both
parent-side closes succeed, and the invariant is preserved. -/
theorem stepIter_ok (numPipes : Nat) (tok : List Char) (s : PSt)
    (hInv : PInv numPipes s) (hk : s.pipeIndex < numPipes ∨ numPipes = 0) :
    ∃ s', stepIter numPipes tok s = Sum.inl s' ∧ PInv numPipes s' ∧
      s'.pipeIndex = s.pipeIndex + 1 ∧
      s'.children.length = s.children.length + 1 := by
  rcases hInv with h0 | ⟨hn, hpi, hop, hnf, hpc⟩ | ⟨hn, h1i, hile, hrd, hop, hnf, hpc⟩
  · -- no pipes: no pipe created, no closes attempted
    subst h0
    have heq : stepIter 0 tok s = Sum.inl
        { s with prevReadFd := s.readFd,
                 children := s.children ++
                   [forkChild 0 tok { s with prevReadFd := s.readFd }],
                 pipeIndex := s.pipeIndex + 1 } := by
      simp only [stepIter]
      rw [if_neg (by omega), if_neg (by omega)]
    exact ⟨_, heq, Or.inl rfl, rfl, by simp⟩
  · -- first stage of a piped line: create the pipe, close its write end
    have hilt : s.pipeIndex < numPipes := by omega
    have hne2 : s.nextFd ≠ s.nextFd + 1 := by omega
    have heq : stepIter numPipes tok s = Sum.inl
        { s with prevReadFd := s.readFd,
                 readFd := s.nextFd,
                 writeFd := s.nextFd + 1,
                 opened := [(s.nextFd, Res.pipeR s.pipeCount)],
                 nextFd := s.nextFd + 2,
                 pipeCount := s.pipeCount + 1,
                 children := s.children ++
                   [forkChild numPipes tok (pOpen { s with prevReadFd := s.readFd })],
                 pipeIndex := s.pipeIndex + 1 } := by
      simp only [stepIter, pOpen]
      rw [hop]
      simp [pClose, hilt, hn, hne2, hpi]
    refine ⟨_, heq, Or.inr (Or.inr ⟨hn, by simp, ?_, ?_, ?_, ?_, ?_⟩), rfl, by simp⟩
    · simp only [hpi]; omega
    · simp only [hnf, hpi]
    · simp only [hnf, hpc, hpi]
    · simp only [hnf, hpi]
    · simp only [hpc, hpi]
  · -- a later stage: create the pipe, close its write end and the
    -- previous read end
    have hilt : s.pipeIndex < numPipes := by omega
    have hne1 : 2 * s.pipeIndex + 1 ≠ s.nextFd + 1 := by omega
    have hne2 : s.nextFd ≠ s.nextFd + 1 := by omega
    have hne3 : s.nextFd ≠ 2 * s.pipeIndex + 1 := by omega
    have hpine : s.pipeIndex ≠ 0 := by omega
    have heq : stepIter numPipes tok s = Sum.inl
        { s with prevReadFd := s.readFd,
                 readFd := s.nextFd,
                 writeFd := s.nextFd + 1,
                 opened := [(s.nextFd, Res.pipeR s.pipeCount)],
                 nextFd := s.nextFd + 2,
                 pipeCount := s.pipeCount + 1,
                 children := s.children ++
                   [forkChild numPipes tok (pOpen { s with prevReadFd := s.readFd })],
                 pipeIndex := s.pipeIndex + 1 } := by
      simp only [stepIter, pOpen]
      rw [hop, hrd]
      simp [pClose, hilt, hn, hne1, hne2, hne3, hpine]
    refine ⟨_, heq, Or.inr (Or.inr ⟨hn, by simp, ?_, ?_, ?_, ?_, ?_⟩), rfl, by simp⟩
    · simp only []; omega
    · simp only [hnf]; omega
    · simp only [hnf, hpc]
      have e1 : 2 * (s.pipeIndex + 1) + 1 = 2 * s.pipeIndex + 3 := by omega
      have e2 : s.pipeIndex + 1 - 1 = s.pipeIndex := by omega
      rw [e1, e2]
    · simp only [hnf]; omega
    · simp only [hpc]

/-- Running the stage loop over a block of ordinary segments whose count
stays within the pipe count (or with no pipes at all) forks one child per
segment and leaves the loop running with the invariant intact. -/
theorem loop_block (numPipes : Nat) (pre : List (List Char)) :
    ∀ (rest : List (List Char)) (s : PSt),
    (∀ t ∈ pre, t ≠ exitSeg ∧ t ≠ nlSeg) → PInv numPipes s →
    (s.pipeIndex + pre.length ≤ numPipes ∨ numPipes = 0) →
    ∃ s', loop numPipes (pre ++ rest) s = loop numPipes rest s' ∧
      PInv numPipes s' ∧
      s'.children.length = s.children.length + pre.length := by
  induction pre with
  | nil =>
    intro rest s _ hInv _
    exact ⟨s, rfl, hInv, by simp⟩
  | cons t pre ih =>
    intro rest s h hInv hk
    have ht := h t (List.mem_cons_self t pre)
    have hk' : s.pipeIndex < numPipes ∨ numPipes = 0 := by
      rcases hk with hk | hk
      · left; simp only [List.length_cons] at hk; omega
      · right; exact hk
    obtain ⟨s1, hstep, hInv1, hpi1, hch1⟩ := stepIter_ok numPipes t s hInv hk'
    have hk1 : s1.pipeIndex + pre.length ≤ numPipes ∨ numPipes = 0 := by
      rcases hk with hk | hk
      · left; simp only [List.length_cons] at hk; omega
      · right; exact hk
    obtain ⟨s', heq, hInv', hch'⟩ :=
      ih rest s1 (fun u hu => h u (List.mem_cons_of_mem t hu)) hInv1 hk1
    refine ⟨s', ?_, hInv', by simp only [List.length_cons]; omega⟩
    show loop numPipes ((t :: pre) ++ rest) s = loop numPipes rest s'
    simp only [List.cons_append, loop]
    rw [if_neg ht.1, if_neg ht.2, hstep]
    exact heq

/-- C3 (amended): the parent treats a segment as the exit command only
when it is exactly the literal `exit` immediately followed by the line
terminator (so, the terminator being the last character of the line, only
as the final segment and with no surrounding spaces).  When such a segment
is reached by the stage loop — every earlier segment being an ordinary
stage and, if the line has pipe tokens, lying within the pipe count — the
whole process exits with success status 0, after having already spawned
one child per earlier segment (not before any stage is spawned). -/
theorem C3_exit_only_terminal_segment (line : List Char)
    (pre post : List (List Char))
    (hseg : strtokSplit '|' line = pre ++ exitSeg :: post)
    (hpre : ∀ t ∈ pre, t ≠ exitSeg ∧ t ≠ nlSeg)
    (hk : pre.length ≤ count_pipes line ∨ count_pipes line = 0) :
    (runLine line).exited = some 0 ∧
    (runLine line).children.length = pre.length := by
  have hInv0 : PInv (count_pipes line) initPSt := by
    rcases Nat.eq_zero_or_pos (count_pipes line) with h | h
    · exact Or.inl h
    · exact Or.inr (Or.inl ⟨h, rfl, rfl, rfl, rfl⟩)
  have hk0 : initPSt.pipeIndex + pre.length ≤ count_pipes line ∨
      count_pipes line = 0 := by
    rcases hk with hk | hk
    · left; simpa [initPSt] using hk
    · right; exact hk
  obtain ⟨s', heq, _, hch⟩ :=
    loop_block (count_pipes line) pre (exitSeg :: post) initPSt hpre hInv0 hk0
  unfold runLine
  rw [hseg, heq]
  simp only [loop, if_pos rfl]
  refine ⟨rfl, ?_⟩
  simpa [mkRes, initPSt] using hch

/-- C3 witness: for the line `ls|exit` the process exits with status 0,
but only after the `ls` stage has been forked. -/
theorem C3_exit_witness :
    (runLine (cs "ls|exit\n")).exited = some 0 ∧
    (runLine (cs "ls|exit\n")).children.length = [cs "ls"].length :=
  C3_exit_only_terminal_segment (cs "ls|exit\n") [cs "ls"] []
    (by decide) (by decide) (Or.inr (by decide))
